import Mathlib

/-!
Verification of the protein-app core (src/main.py): PDB sequence
extraction, annotation range validation, upload identity assignment and
the view ordering. Python strings are modelled as `List Char` (for file
lines) or `String` (for stored record fields); Python exceptions are
modelled by `Option`/error components; the SQL record store is modelled
as explicit lists of records.
-/

set_option autoImplicit false

namespace ProteinApp

/-! ## Python string primitives -/

/-- Whitespace characters stripped by Python `str.strip()` (ASCII part). -/
def isPySpace (c : Char) : Bool :=
  c == ' ' || c == '\t' || c == '\n' || c == '\r' || c == '\x0b' || c == '\x0c'

/-- Python `s.strip()`: remove leading and trailing whitespace. -/
def pyStrip (s : List Char) : List Char :=
  ((s.dropWhile isPySpace).reverse.dropWhile isPySpace).reverse

/-- Python slice `s[lo:hi]` for nonnegative bounds (clamping, total). -/
def pySlice (lo hi : Nat) (s : List Char) : List Char :=
  (s.drop lo).take (hi - lo)

/-- Does `s` start with `pre`? (Python `str.startswith`.) -/
def listStartsWith : List Char → List Char → Bool
  | [], _ => true
  | _ :: _, [] => false
  | a :: as, b :: bs => a == b && listStartsWith as bs

/-- Does `s` end with `suf`? (Python `str.endswith`.) -/
def listEndsWith (suf s : List Char) : Bool :=
  listStartsWith suf.reverse s.reverse

/-- Python `str.lower()` (ASCII letters; sufficient for extension checks). -/
def pyLower (s : String) : String :=
  String.mk (s.data.map Char.toLower)

/-! ## Sequence extraction (src/main.py, `extract_sequence_from_pdb`) -/

/-- The atomic-coordinate record tag `"ATOM"`. -/
def atomTag : List Char := ['A', 'T', 'O', 'M']

/-- The fixed 20-entry table `RES3_TO_1` mapping three-letter residue
names to one-letter codes. -/
def RES3_TO_1 : List (List Char × Char) :=
  [("ALA".data, 'A'), ("CYS".data, 'C'), ("ASP".data, 'D'), ("GLU".data, 'E'),
   ("PHE".data, 'F'), ("GLY".data, 'G'), ("HIS".data, 'H'), ("ILE".data, 'I'),
   ("LYS".data, 'K'), ("LEU".data, 'L'), ("MET".data, 'M'), ("ASN".data, 'N'),
   ("PRO".data, 'P'), ("GLN".data, 'Q'), ("ARG".data, 'R'), ("SER".data, 'S'),
   ("THR".data, 'T'), ("VAL".data, 'V'), ("TRP".data, 'W'), ("TYR".data, 'Y')]

/-- `RES3_TO_1.get(res_name, "X")`: table lookup with placeholder `'X'`. -/
def res3to1 (name : List Char) : Char :=
  (List.lookup name RES3_TO_1).getD 'X'

/-- Is this line an atomic coordinate record line
(`line.startswith("ATOM")`)? -/
def isAtomLine (line : List Char) : Bool :=
  listStartsWith atomTag line

/-- The loop body of `extract_sequence_from_pdb`: iterate over lines
carrying the `residues_seen` set (as a list of keys) and the `sequence`
accumulator. `line[17:20]` and `line[22:26]` are slices (total), but
`line[21]` is an indexing operation, which raises `IndexError` on an
`ATOM`-tagged line shorter than 22 characters; a raised exception is
modelled as `none`. -/
def extractLoop : List (List Char) → List (List Char × List Char) → List Char →
    Option (List Char)
  | [], _, acc => some acc
  | ln :: rest, seen, acc =>
    if isAtomLine ln then
      match ln[21]? with
      | none => none
      | some c21 =>
        let res_name := pyStrip (pySlice 17 20 ln)
        let chain_id := pyStrip [c21]
        let res_seq := pyStrip (pySlice 22 26 ln)
        if (chain_id, res_seq) ∈ seen then extractLoop rest seen acc
        else extractLoop rest ((chain_id, res_seq) :: seen) (acc ++ [res3to1 res_name])
    else extractLoop rest seen acc

/-- `extract_sequence_from_pdb`: the input stream is given as its list of
lines (Python `for line in f`); `none` models a raised exception. -/
def extract_sequence_from_pdb (lines : List (List Char)) : Option String :=
  (extractLoop lines [] []).map String.mk

/-! ## Specification-level description of extraction (spec §4.1) -/

/-- A line is well formed for the extractor: either it is not an
`ATOM`-tagged line, or it is long enough that `line[21]` exists. -/
def wfLine (line : List Char) : Bool :=
  !(isAtomLine line) || decide (22 ≤ line.length)

/-- The parsed record of a single line: its (chain identifier, residue
sequence number) key and its one-letter code, or `none` when the line is
not a well-formed atomic coordinate record. -/
def lineRecord (ln : List Char) : Option ((List Char × List Char) × Char) :=
  if isAtomLine ln then
    match ln[21]? with
    | some c21 =>
        some ((pyStrip [c21], pyStrip (pySlice 22 26 ln)),
          res3to1 (pyStrip (pySlice 17 20 ln)))
    | none => none
  else none

/-- The parsed atomic records of a stream, in stream order. -/
def atomRecords (lines : List (List Char)) : List ((List Char × List Char) × Char) :=
  lines.filterMap lineRecord

/-- Spec §4.1: codes in order of first appearance, deduplicated per key,
given the keys already seen. -/
def specSeqAux : List ((List Char × List Char) × Char) → List (List Char × List Char) →
    List Char
  | [], _ => []
  | (k, c) :: rest, seen =>
    if k ∈ seen then specSeqAux rest seen else c :: specSeqAux rest (k :: seen)

/-- The keys kept by `specSeqAux`, in the same order. -/
def specKeysAux : List ((List Char × List Char) × Char) → List (List Char × List Char) →
    List (List Char × List Char)
  | [], _ => []
  | (k, _) :: rest, seen =>
    if k ∈ seen then specKeysAux rest seen else k :: specKeysAux rest (k :: seen)

/-- Spec §4.1 contract: one-letter codes of the stream's atomic records,
ordered by first appearance, deduplicated per (chain, residue-number) key. -/
def specSequence (lines : List (List Char)) : List Char :=
  specSeqAux (atomRecords lines) []

/-- The one-letter amino-acid alphabet plus the unknown marker `'X'`. -/
def allowedChars : List Char :=
  ['A', 'C', 'D', 'E', 'F', 'G', 'H', 'I', 'K', 'L', 'M',
   'N', 'P', 'Q', 'R', 'S', 'T', 'V', 'W', 'Y', 'X']

/-! ## Data model (src/main.py, `Protein` / `Annotation` tables) -/

/-- User-visible and store-level errors: `InvalidInput` is the 400 for a
non-`.pdb` filename, `NotFound` the 404 for an unknown slug,
`InvalidRange` the 400 for a bad index range; `IntegrityError` models the
record store rejecting a duplicate of the unique `slug` column at commit,
and `InternalError` an unhandled exception inside a handler. -/
inductive ApiError where
  | InvalidInput
  | NotFound
  | InvalidRange
  | IntegrityError
  | InternalError
deriving DecidableEq

/-- A row of the `proteins` table (`created_at` as an abstract tick). -/
structure ProteinRec where
  id : Nat
  slug : String
  filename : String
  sequence : String
  created_at : Nat
deriving DecidableEq

/-- A row of the `annotations` table. -/
structure AnnotationRec where
  id : Nat
  protein_id : Nat
  start_index : Int
  end_index : Int
  label : String
  color : String
  created_at : Nat
deriving DecidableEq

/-- The record store: both tables. -/
structure Store where
  proteins : List ProteinRec
  annotations : List AnnotationRec
deriving DecidableEq

/-- The upload directory: file name to file content (list of lines),
later writes shadowing earlier ones. -/
abbrev FS := List (String × List (List Char))

/-- Every stored protein sequence is over the allowed alphabet. -/
def StoreSeqOK (db : Store) : Prop :=
  ∀ p ∈ db.proteins, ∀ c ∈ p.sequence.data, c ∈ allowedChars

/-! ## Routes (src/main.py) -/

/-- The range test of `add_annotation` (src/main.py line 218):
`start_index < 0 or end_index >= len(sequence) or start_index > end_index`. -/
def invalid_range (seqLen : Nat) (start_index end_index : Int) : Bool :=
  decide (start_index < 0 ∨ end_index ≥ (seqLen : Int) ∨ start_index > end_index)

/-- `POST /p/{slug}/annotations`: look the protein up by slug, validate
the range against the stored sequence, then persist. A raised
`HTTPException` leaves the store unchanged and is returned as the error
component. -/
def add_annotation (db : Store) (slug : String) (start_index end_index : Int)
    (label color : String) (now : Nat) : Option ApiError × Store :=
  match db.proteins.find? (fun p => p.slug == slug) with
  | none => (some ApiError.NotFound, db)
  | some protein =>
    if invalid_range protein.sequence.length start_index end_index then
      (some ApiError.InvalidRange, db)
    else
      (none, { db with annotations := db.annotations ++
        [{ id := db.annotations.length, protein_id := protein.id,
           start_index := start_index, end_index := end_index,
           label := label, color := color, created_at := now }] })

/-- The upload filename gate: `file.filename.lower().endswith(".pdb")`. -/
def endsWithPdb (filename : String) : Bool :=
  listEndsWith ".pdb".data (pyLower filename).data

/-- `POST /upload`: check the extension, write the file under
`{slug}.pdb`, parse the sequence from the written file, then insert the
`Protein` row; the commit enforces the unique `slug` column, surfacing a
duplicate slug as an `IntegrityError` after the file was already
written. The randomly drawn slug and the clock are parameters. -/
def upload_pdb (db : Store) (fs : FS) (filename : String)
    (content : List (List Char)) (slug : String) (now : Nat) :
    Option ApiError × Store × FS :=
  if !endsWithPdb filename then (some ApiError.InvalidInput, db, fs)
  else
    let save_name := slug ++ ".pdb"
    let fs1 : FS := (save_name, content) :: fs
    match extract_sequence_from_pdb content with
    | none => (some ApiError.InternalError, db, fs1)
    | some sequence =>
      if db.proteins.any (fun p => p.slug == slug) then
        (some ApiError.IntegrityError, db, fs1)
      else
        (none,
         { db with proteins := db.proteins ++
             [{ id := db.proteins.length, slug := slug, filename := save_name,
                sequence := sequence, created_at := now }] },
         fs1)

/-- Display order of annotations: `created_at` ascending. -/
def createdLE (a b : AnnotationRec) : Prop :=
  a.created_at ≤ b.created_at

instance : DecidableRel createdLE :=
  fun a b => Nat.decLe a.created_at b.created_at

instance : IsTotal AnnotationRec createdLE :=
  ⟨fun a b => Nat.le_total a.created_at b.created_at⟩

instance : IsTrans AnnotationRec createdLE :=
  ⟨fun _ _ _ => Nat.le_trans⟩

/-- `order_by(Annotation.created_at.asc())`, modelled by a stable sort. -/
def sortByCreated (l : List AnnotationRec) : List AnnotationRec :=
  List.insertionSort createdLE l

/-- `GET /p/{slug}`: the protein and its annotations ordered by creation
time, or `none` for the 404. -/
def view_protein (db : Store) (slug : String) :
    Option (ProteinRec × List AnnotationRec) :=
  match db.proteins.find? (fun p => p.slug == slug) with
  | none => none
  | some protein =>
    some (protein,
      sortByCreated (db.annotations.filter (fun a => a.protein_id == protein.id)))

/-! ## Concrete streams used in scenario checks -/

/-- An atomic record line: residue ALA, chain A, sequence number 1. -/
def lineALA1 : List Char := "ATOM      1  N   ALA A   1".data

/-- A second atom of the same residue (same key, chain A seq 1). -/
def lineALA1b : List Char := "ATOM      2  C   ALA A   1".data

/-- An atomic record line: residue GLY, chain A, sequence number 2. -/
def lineGLY2 : List Char := "ATOM      3  N   GLY A   2".data

/-- An atomic record line with the unmapped residue name XYZ. -/
def lineXYZ1 : List Char := "ATOM      1  N   XYZ A   1".data

/-! ## Concrete stores used in witnesses and counterexamples -/

/-- The empty store. -/
def emptyStore : Store := { proteins := [], annotations := [] }

/-- A protein with the two-letter sequence "AG". -/
def protAG : ProteinRec :=
  { id := 0, slug := "s", filename := "s.pdb", sequence := "AG", created_at := 0 }

/-- A one-protein store with sequence "AG" and no annotations. -/
def dbAG : Store := { proteins := [protAG], annotations := [] }

/-- A protein with the empty sequence. -/
def protE : ProteinRec :=
  { id := 0, slug := "e", filename := "e.pdb", sequence := "", created_at := 0 }

/-- A one-protein store whose protein has the empty sequence. -/
def dbEmptySeq : Store := { proteins := [protE], annotations := [] }

/-- An annotation created at tick 5. -/
def annLate : AnnotationRec :=
  { id := 0, protein_id := 0, start_index := 0, end_index := 1, label := "late",
    color := "red", created_at := 5 }

/-- An annotation created at tick 3. -/
def annEarly : AnnotationRec :=
  { id := 1, protein_id := 0, start_index := 0, end_index := 0, label := "early",
    color := "blue", created_at := 3 }

/-- A store holding both annotations in reverse creation order. -/
def dbView : Store := { proteins := [protAG], annotations := [annLate, annEarly] }

/-- A protein whose slug "ab" is about to collide with an upload. -/
def protAB : ProteinRec :=
  { id := 0, slug := "ab", filename := "ab.pdb", sequence := "", created_at := 0 }

/-- A store already holding the slug "ab". -/
def dbCollide : Store := { proteins := [protAB], annotations := [] }

/-- An upload directory already holding a file "ab.pdb" with one line. -/
def fsCollide : FS := [("ab.pdb", [['A']])]

/-! ## Lemmas about the extraction loop -/

theorem get21_some {ln : List Char} (h : 22 ≤ ln.length) :
    ∃ c, ln[21]? = some c := by
  cases hg : ln[21]? with
  | none => exact absurd (List.getElem?_eq_none_iff.mp hg) (by omega)
  | some c => exact ⟨c, rfl⟩

theorem extractLoop_ok : ∀ (lines : List (List Char)), lines.all wfLine = true →
    ∀ (seen : List (List Char × List Char)) (acc : List Char),
    extractLoop lines seen acc = some (acc ++ specSeqAux (atomRecords lines) seen) := by
  intro lines
  induction lines with
  | nil => intro _ seen acc; simp [extractLoop, atomRecords, specSeqAux]
  | cons ln rest ih =>
    intro hall seen acc
    rw [List.all_cons, Bool.and_eq_true] at hall
    obtain ⟨hline, hrest⟩ := hall
    by_cases hA : isAtomLine ln = true
    · have hlen : 22 ≤ ln.length := by
        unfold wfLine at hline
        rw [hA] at hline
        simpa using hline
      obtain ⟨c21, hc⟩ := get21_some hlen
      by_cases hmem : (pyStrip [c21], pyStrip (pySlice 22 26 ln)) ∈ seen
      · simp [extractLoop, atomRecords, lineRecord, specSeqAux, hA, hc, hmem,
          ih hrest]
      · simp [extractLoop, atomRecords, lineRecord, specSeqAux, hA, hc, hmem,
          ih hrest]
    · simp [extractLoop, atomRecords, lineRecord, hA, ih hrest]

theorem extractLoop_none : ∀ (lines : List (List Char)), lines.all wfLine = false →
    ∀ (seen : List (List Char × List Char)) (acc : List Char),
    extractLoop lines seen acc = none := by
  intro lines
  induction lines with
  | nil => intro h; simp at h
  | cons ln rest ih =>
    intro hall seen acc
    rw [List.all_cons] at hall
    by_cases hw : wfLine ln = true
    · have hrest : rest.all wfLine = false := by
        rw [hw] at hall
        simpa using hall
      by_cases hA : isAtomLine ln = true
      · have hlen : 22 ≤ ln.length := by
          unfold wfLine at hw
          rw [hA] at hw
          simpa using hw
        obtain ⟨c21, hc⟩ := get21_some hlen
        by_cases hmem : (pyStrip [c21], pyStrip (pySlice 22 26 ln)) ∈ seen
        · simp [extractLoop, hA, hc, hmem, ih hrest]
        · simp [extractLoop, hA, hc, hmem, ih hrest]
      · simp [extractLoop, hA, ih hrest]
    · have hw' : wfLine ln = false := by
        revert hw
        cases wfLine ln <;> simp
      have hparts : isAtomLine ln = true ∧ ¬ 22 ≤ ln.length := by
        unfold wfLine at hw'
        rcases Bool.or_eq_false_iff.mp hw' with ⟨h1, h2⟩
        refine ⟨?_, by simpa using h2⟩
        revert h1
        cases isAtomLine ln <;> simp
      have hc : ln[21]? = none := List.getElem?_eq_none (by omega)
      simp [extractLoop, hparts.1, hc]

/-! ## Claim theorems: extraction -/

/-- C2: sequence extraction visits only atomic coordinate record lines,
emits one one-letter code per distinct (chain, residue-number) key in
order of first appearance, skipping already-seen keys, and maps unmapped
residue names to the placeholder code "X" — stated as equality with the
specification-level description `specSequence` on every stream whose
ATOM-tagged lines are well formed — and the two concrete scenarios:
ALA(A,1), ALA(A,1), GLY(A,2) yields "AG", and a lone XYZ(A,1) yields "X". -/
theorem extract_sequence_spec :
    (∀ lines : List (List Char),
      extract_sequence_from_pdb lines =
        if lines.all wfLine then some (String.mk (specSequence lines)) else none) ∧
    extract_sequence_from_pdb [lineALA1, lineALA1b, lineGLY2] = some "AG" ∧
    extract_sequence_from_pdb [lineXYZ1] = some "X" := by
  refine ⟨?_, by decide, by decide⟩
  intro lines
  by_cases h : lines.all wfLine = true
  · rw [if_pos h]
    unfold extract_sequence_from_pdb
    rw [extractLoop_ok lines h [] []]
    simp [specSequence]
  · have hf : lines.all wfLine = false := by
      revert h
      cases lines.all wfLine <;> simp
    rw [if_neg (by simp [hf])]
    unfold extract_sequence_from_pdb
    rw [extractLoop_none lines hf [] []]
    rfl

/-- C3: the empty stream extracts to the empty sequence, but a truncated
ATOM-tagged line (shorter than 22 characters, here the single line
"ATOM") makes the indexing `line[21]` raise, modelled as `none`: the
extractor does not return normally on every malformed stream. -/
theorem extract_short_atom_raises :
    extract_sequence_from_pdb [] = some "" ∧
    extract_sequence_from_pdb ["ATOM".data] = none := by
  decide

/-! ## Counting distinct keys -/

theorem specSeqAux_length : ∀ (rs : List ((List Char × List Char) × Char))
    (seen : List (List Char × List Char)),
    (specSeqAux rs seen).length = (specKeysAux rs seen).length := by
  intro rs
  induction rs with
  | nil => intro seen; simp [specSeqAux, specKeysAux]
  | cons kc rest ih =>
    intro seen
    obtain ⟨k, c⟩ := kc
    by_cases hmem : k ∈ seen
    · simp [specSeqAux, specKeysAux, hmem, ih]
    · simp [specSeqAux, specKeysAux, hmem, ih]

theorem mem_specKeysAux : ∀ (rs : List ((List Char × List Char) × Char))
    (seen : List (List Char × List Char)) (a : List Char × List Char),
    a ∈ specKeysAux rs seen ↔ a ∈ rs.map Prod.fst ∧ a ∉ seen := by
  intro rs
  induction rs with
  | nil => intro seen a; simp [specKeysAux]
  | cons kc rest ih =>
    intro seen a
    obtain ⟨k, c⟩ := kc
    by_cases hmem : k ∈ seen
    · by_cases hak : a = k
      · subst hak
        simp [specKeysAux, hmem, ih, hmem]
      · simp [specKeysAux, hmem, ih, hak]
    · by_cases hak : a = k
      · subst hak
        simp [specKeysAux, hmem, ih]
      · simp only [specKeysAux, if_neg hmem, List.mem_cons, ih, List.map_cons]
        tauto

theorem specKeysAux_nodup : ∀ (rs : List ((List Char × List Char) × Char))
    (seen : List (List Char × List Char)),
    (specKeysAux rs seen).Nodup := by
  intro rs
  induction rs with
  | nil => intro seen; simp [specKeysAux]
  | cons kc rest ih =>
    intro seen
    obtain ⟨k, c⟩ := kc
    by_cases hmem : k ∈ seen
    · simpa [specKeysAux, hmem] using ih seen
    · rw [specKeysAux, if_neg hmem]
      refine List.nodup_cons.mpr ⟨?_, ih (k :: seen)⟩
      intro hk
      exact ((mem_specKeysAux rest (k :: seen) k).mp hk).2 (List.mem_cons_self k seen)

theorem specSequence_length (lines : List (List Char)) :
    (specSequence lines).length =
      ((atomRecords lines).map Prod.fst).toFinset.card := by
  have hnd := specKeysAux_nodup (atomRecords lines) []
  have hfs : (specKeysAux (atomRecords lines) []).toFinset =
      ((atomRecords lines).map Prod.fst).toFinset := by
    apply Finset.ext
    intro a
    simp [List.mem_toFinset, mem_specKeysAux]
  rw [specSequence, specSeqAux_length, ← List.toFinset_card_of_nodup hnd, hfs]

/-! ## Claim theorems: extraction output length (C4) -/

/-- C4: whenever sequence extraction returns a string, its length equals
the number of distinct (chain identifier, residue sequence number) pairs
among the stream's atomic coordinate record lines. -/
theorem extract_length_distinct_keys : ∀ (lines : List (List Char)) (s : String),
    extract_sequence_from_pdb lines = some s →
    s.length = ((atomRecords lines).map Prod.fst).toFinset.card := by
  intro lines s hs
  have hall : lines.all wfLine = true := by
    by_contra hna
    have hf : lines.all wfLine = false := by
      revert hna
      cases lines.all wfLine <;> simp
    rw [extract_sequence_from_pdb, extractLoop_none lines hf [] []] at hs
    exact Option.noConfusion hs
  rw [extract_sequence_from_pdb, extractLoop_ok lines hall [] []] at hs
  have : s = String.mk (specSequence lines) := by
    simpa [specSequence] using hs.symm
  rw [this]
  exact specSequence_length lines

/-- Witness for C4 at the concrete three-line ALA/ALA/GLY stream. -/
theorem extract_length_distinct_keys_witness :
    ("AG" : String).length =
      ((atomRecords [lineALA1, lineALA1b, lineGLY2]).map Prod.fst).toFinset.card :=
  extract_length_distinct_keys [lineALA1, lineALA1b, lineGLY2] "AG" (by decide)

/-! ## The output alphabet -/

theorem lookup_getD_mem : ∀ (l : List (List Char × Char)) (k : List Char) (d : Char)
    (S : List Char), (∀ p ∈ l, p.2 ∈ S) → d ∈ S → (List.lookup k l).getD d ∈ S := by
  intro l
  induction l with
  | nil => intro k d S _ hd; simpa [List.lookup] using hd
  | cons p rest ih =>
    intro k d S hl hd
    obtain ⟨a, b⟩ := p
    rw [List.lookup]
    split
    · exact hl (a, b) (List.mem_cons_self _ _)
    · exact ih k d S (fun q hq => hl q (List.mem_cons_of_mem _ hq)) hd

theorem res3to1_mem (name : List Char) : res3to1 name ∈ allowedChars := by
  unfold res3to1
  exact lookup_getD_mem RES3_TO_1 name 'X' allowedChars (by decide) (by decide)

theorem extractLoop_chars : ∀ (lines : List (List Char))
    (seen : List (List Char × List Char)) (acc : List Char),
    (∀ c ∈ acc, c ∈ allowedChars) → ∀ out, extractLoop lines seen acc = some out →
    ∀ c ∈ out, c ∈ allowedChars := by
  intro lines
  induction lines with
  | nil =>
    intro seen acc hacc out hout
    rw [extractLoop] at hout
    cases hout
    exact hacc
  | cons ln rest ih =>
    intro seen acc hacc out hout
    by_cases hA : isAtomLine ln = true
    · cases hg : ln[21]? with
      | none => rw [extractLoop] at hout; simp [hA, hg] at hout
      | some c21 =>
        rw [extractLoop] at hout
        simp only [hA, hg, if_true] at hout
        by_cases hmem : (pyStrip [c21], pyStrip (pySlice 22 26 ln)) ∈ seen
        · rw [if_pos hmem] at hout
          exact ih _ _ hacc out hout
        · rw [if_neg hmem] at hout
          refine ih _ _ ?_ out hout
          intro c hc
          rcases List.mem_append.mp hc with h | h
          · exact hacc c h
          · rw [List.mem_singleton.mp h]
            exact res3to1_mem _
    · rw [extractLoop] at hout
      simp only [hA] at hout
      exact ih _ _ hacc out (by simpa using hout)

theorem extract_chars (lines : List (List Char)) (s : String)
    (hs : extract_sequence_from_pdb lines = some s) :
    ∀ c ∈ s.data, c ∈ allowedChars := by
  rw [extract_sequence_from_pdb] at hs
  rcases Option.map_eq_some'.mp hs with ⟨out, hout, hmk⟩
  intro c hc
  refine extractLoop_chars lines [] [] (by simp) out hout c ?_
  rw [← hmk] at hc
  simpa using hc

theorem upload_proteins_cases (db : Store) (fs : FS) (filename : String)
    (content : List (List Char)) (slug : String) (now : Nat) :
    (upload_pdb db fs filename content slug now).2.1.proteins = db.proteins ∨
    ∃ seq, extract_sequence_from_pdb content = some seq ∧
      (upload_pdb db fs filename content slug now).2.1.proteins =
        db.proteins ++
          [{ id := db.proteins.length, slug := slug, filename := slug ++ ".pdb",
             sequence := seq, created_at := now }] := by
  unfold upload_pdb
  cases hpdb : endsWithPdb filename with
  | false => left; simp [hpdb]
  | true =>
    cases hex : extract_sequence_from_pdb content with
    | none => left; simp [hpdb, hex]
    | some seq =>
      by_cases hany : db.proteins.any (fun p => p.slug == slug) = true
      · left; simp [hpdb, hex, hany]
      · right
        exact ⟨seq, rfl, by simp [hpdb, hex, hany]⟩

theorem add_annotation_proteins (db : Store) (slug : String)
    (start_index end_index : Int) (label color : String) (now : Nat) :
    ( add_annotation db slug start_index end_index label color now).2.proteins =
      db.proteins := by
  unfold add_annotation
  cases hf : db.proteins.find? (fun p => p.slug == slug) with
  | none => rfl
  | some protein =>
    by_cases hv : invalid_range protein.sequence.length start_index end_index = true
    · simp [hv]
    · simp [hv]

/-! ## Claim theorems: alphabet invariant (C6) -/

/-- C6: every character of a string returned by sequence extraction lies
in the 20-letter one-letter amino-acid alphabet extended with the unknown
marker 'X', and both state-changing operations preserve the invariant
that every stored Protein sequence is over that alphabet. -/
theorem sequence_alphabet_invariant :
    (∀ (lines : List (List Char)) (s : String),
      extract_sequence_from_pdb lines = some s → ∀ c ∈ s.data, c ∈ allowedChars) ∧
    (∀ (db : Store) (fs : FS) (filename : String) (content : List (List Char))
      (slug : String) (now : Nat), StoreSeqOK db →
      StoreSeqOK (upload_pdb db fs filename content slug now).2.1) ∧
    (∀ (db : Store) (slug : String) (start_index end_index : Int)
      (label color : String) (now : Nat), StoreSeqOK db →
      StoreSeqOK ( add_annotation db slug start_index end_index label color now).2) := by
  refine ⟨extract_chars, ?_, ?_⟩
  · intro db fs filename content slug now hok
    rcases upload_proteins_cases db fs filename content slug now with h | ⟨seq, hex, h⟩
    · intro p hp
      rw [h] at hp
      exact hok p hp
    · intro p hp
      rw [h] at hp
      rcases List.mem_append.mp hp with hmem | hmem
      · exact hok p hmem
      · rw [List.mem_singleton.mp hmem]
        exact extract_chars content seq hex
  · intro db slug s e label color now hok p hp
    rw [add_annotation_proteins] at hp
    exact hok p hp

/-- Witness for C6: the placeholder code of the unmapped-residue scenario
is in the allowed alphabet. -/
theorem sequence_alphabet_invariant_witness : 'X' ∈ allowedChars :=
  sequence_alphabet_invariant.1 [lineXYZ1] "X" (by decide) 'X' (by decide)

/-! ## Claim theorems: range validation (C1) -/

/-- C1: the range test of `add_annotation` succeeds exactly on integer
pairs with 0 ≤ start ≤ end < sequence_length, and fails exactly when
start < 0 or end ≥ sequence_length or start > end; being boolean, one of
the two outcomes occurs for every integer pair and every length. -/
theorem validate_range_iff : ∀ (seqLen : Nat) (start_index end_index : Int),
    (invalid_range seqLen start_index end_index = false ↔
      0 ≤ start_index ∧ start_index ≤ end_index ∧ end_index < (seqLen : Int)) ∧
    (invalid_range seqLen start_index end_index = true ↔
      (start_index < 0 ∨ end_index ≥ (seqLen : Int) ∨ start_index > end_index)) := by
  intro L s e
  unfold invalid_range
  constructor
  · rw [decide_eq_false_iff_not]
    constructor
    · intro h
      refine ⟨?_, ?_, ?_⟩ <;> omega
    · intro h
      omega
  · rw [decide_eq_true_eq]

/-! ## Claim theorems: annotation creation (C5, C10) -/

/-- C5: annotation creation fails with NotFound on an unknown slug and
with InvalidRange on a range the stored sequence rejects, leaving the
store unchanged in both failure cases; on success exactly one Annotation
carrying the given fields is appended. -/
theorem add_annotation_spec : ∀ (db : Store) (slug : String)
    (start_index end_index : Int) (label color : String) (now : Nat),
    ((∀ p ∈ db.proteins, ¬ p.slug = slug) →
      add_annotation db slug start_index end_index label color now =
        (some ApiError.NotFound, db)) ∧
    (∀ protein, db.proteins.find? (fun p => p.slug == slug) = some protein →
      (invalid_range protein.sequence.length start_index end_index = true →
        add_annotation db slug start_index end_index label color now =
          (some ApiError.InvalidRange, db)) ∧
      (invalid_range protein.sequence.length start_index end_index = false →
        add_annotation db slug start_index end_index label color now =
          (none, { db with annotations := db.annotations ++
            [{ id := db.annotations.length, protein_id := protein.id,
               start_index := start_index, end_index := end_index,
               label := label, color := color, created_at := now }] }))) := by
  intro db slug s e label color now
  constructor
  · intro hn
    have hf : db.proteins.find? (fun p => p.slug == slug) = none :=
      List.find?_eq_none.mpr (fun p hp => by simpa using hn p hp)
    unfold add_annotation
    rw [hf]
  · intro protein hf
    constructor
    · intro hv
      unfold add_annotation
      rw [hf]
      simp [hv]
    · intro hv
      unfold add_annotation
      rw [hf]
      simp [hv]

/-- Witness for C5: a successful creation on the store `dbAG` appends
exactly the requested annotation. -/
theorem add_annotation_spec_witness :
    add_annotation dbAG "s" 0 1 "site" "red" 7 =
      (none, { dbAG with annotations :=
        [{ id := 0, protein_id := 0, start_index := 0, end_index := 1,
           label := "site", color := "red", created_at := 7 }] }) :=
  ((add_annotation_spec dbAG "s" 0 1 "site" "red" 7).2 protAG (by decide)).2 (by decide)

theorem invalid_range_zero (start_index end_index : Int) :
    invalid_range 0 start_index end_index = true := by
  unfold invalid_range
  rw [decide_eq_true_eq]
  omega

/-- C10: against a protein whose stored sequence is empty, every
annotation-creation request fails with InvalidRange and leaves the store
unchanged. -/
theorem empty_sequence_rejects_all : ∀ (db : Store) (slug : String)
    (start_index end_index : Int) (label color : String) (now : Nat)
    (protein : ProteinRec),
    db.proteins.find? (fun p => p.slug == slug) = some protein →
    protein.sequence = "" →
    add_annotation db slug start_index end_index label color now =
      (some ApiError.InvalidRange, db) := by
  intro db slug s e label color now protein hf hseq
  unfold add_annotation
  rw [hf]
  have hlen : protein.sequence.length = 0 := by rw [hseq]; rfl
  simp [hlen, invalid_range_zero]

/-- Witness for C10 at the concrete empty-sequence store `dbEmptySeq`. -/
theorem empty_sequence_rejects_all_witness :
    add_annotation dbEmptySeq "e" 0 0 "site" "red" 1 =
      (some ApiError.InvalidRange, dbEmptySeq) :=
  empty_sequence_rejects_all dbEmptySeq "e" 0 0 "site" "red" 1 protE
    (by decide) (by decide)

/-! ## Claim theorems: upload (C7, C8) -/

/-- C7: an upload is rejected as InvalidInput exactly when the
(lower-cased) filename does not end in ".pdb", and on rejection the store
and the upload directory are unchanged: no Protein is created and no file
is stored. -/
theorem upload_extension_check : ∀ (db : Store) (fs : FS) (filename : String)
    (content : List (List Char)) (slug : String) (now : Nat),
    ((upload_pdb db fs filename content slug now).1 = some ApiError.InvalidInput ↔
      endsWithPdb filename = false) ∧
    (endsWithPdb filename = false →
      upload_pdb db fs filename content slug now =
        (some ApiError.InvalidInput, db, fs)) := by
  intro db fs filename content slug now
  cases hpdb : endsWithPdb filename with
  | false =>
    constructor
    · simp [upload_pdb, hpdb]
    · intro _
      simp [upload_pdb, hpdb]
  | true =>
    constructor
    · cases hex : extract_sequence_from_pdb content with
      | none => simp [upload_pdb, hpdb, hex]
      | some seq =>
        by_cases hany : db.proteins.any (fun p => p.slug == slug) = true
        · simp [upload_pdb, hpdb, hex, hany]
        · simp [upload_pdb, hpdb, hex, hany]
    · intro h
      exact Bool.noConfusion h

/-- Witness for C7: a ".txt" upload is rejected and changes nothing. -/
theorem upload_extension_check_witness :
    upload_pdb emptyStore [] "notes.txt" [] "ab" 0 =
      (some ApiError.InvalidInput, emptyStore, []) :=
  (upload_extension_check emptyStore [] "notes.txt" [] "ab" 0).2 (by decide)

/-- C8 counterexample: uploading "new.pdb" under the already-used slug
"ab" surfaces an IntegrityError, yet the stored file "ab.pdb" is silently
overwritten: it held the single line "A" before the upload and holds the
new (empty) content afterwards — refuting the claim that no existing
state is overwritten. -/
theorem upload_collision_overwrites_file :
    (upload_pdb dbCollide fsCollide "new.pdb" [] "ab" 1).1 =
      some ApiError.IntegrityError ∧
    (upload_pdb dbCollide fsCollide "new.pdb" [] "ab" 1).2.2.lookup "ab.pdb" =
      some [] ∧
    fsCollide.lookup "ab.pdb" = some [['A']] := by
  decide

/-- C8 amended: on a slug collision the upload surfaces an error (never
silently succeeds) and the Protein record store is unchanged, but the
file under the slug-derived name is overwritten with the new upload's
content before the error surfaces. -/
theorem upload_collision_amended : ∀ (db : Store) (fs : FS) (filename : String)
    (content : List (List Char)) (slug : String) (now : Nat),
    endsWithPdb filename = true →
    (∃ p ∈ db.proteins, p.slug = slug) →
    (upload_pdb db fs filename content slug now).1 ≠ none ∧
    (upload_pdb db fs filename content slug now).2.1 = db ∧
    (upload_pdb db fs filename content slug now).2.2 =
      (slug ++ ".pdb", content) :: fs := by
  intro db fs filename content slug now hpdb hcol
  have hany : db.proteins.any (fun p => p.slug == slug) = true := by
    rcases hcol with ⟨p, hp, hslug⟩
    exact List.any_eq_true.mpr ⟨p, hp, by simpa using hslug⟩
  cases hex : extract_sequence_from_pdb content with
  | none => refine ⟨?_, ?_, ?_⟩ <;> simp [upload_pdb, hpdb, hex]
  | some seq => refine ⟨?_, ?_, ?_⟩ <;> simp [upload_pdb, hpdb, hex, hany]

/-- Witness for C8 (amended form) at the concrete colliding store. -/
theorem upload_collision_amended_witness :
    (upload_pdb dbCollide fsCollide "x.pdb" [] "ab" 2).1 ≠ none ∧
    (upload_pdb dbCollide fsCollide "x.pdb" [] "ab" 2).2.1 = dbCollide ∧
    (upload_pdb dbCollide fsCollide "x.pdb" [] "ab" 2).2.2 =
      ("ab" ++ ".pdb", ([] : List (List Char))) :: fsCollide :=
  upload_collision_amended dbCollide fsCollide "x.pdb" [] "ab" 2
    (by decide) (by decide)

/-! ## Claim theorems: view ordering (C9) -/

/-- C9: whenever the view operation succeeds, the returned annotation
list is sorted by created_at ascending and is a permutation of the
protein's annotations in the store. -/
theorem view_protein_sorted : ∀ (db : Store) (slug : String)
    (pr : ProteinRec × List AnnotationRec),
    view_protein db slug = some pr →
    List.Pairwise createdLE pr.2 ∧
    pr.2.Perm (db.annotations.filter (fun a => a.protein_id == pr.1.id)) := by
  intro db slug pr hv
  unfold view_protein at hv
  cases hf : db.proteins.find? (fun p => p.slug == slug) with
  | none => rw [hf] at hv; cases hv
  | some protein =>
    rw [hf] at hv
    injection hv with hv
    subst hv
    constructor
    · exact List.sorted_insertionSort createdLE _
    · exact List.perm_insertionSort createdLE _

/-- Witness for C9: viewing `dbView` returns the two annotations in
creation order (tick 3 before tick 5), a permutation of the stored
filter. -/
theorem view_protein_sorted_witness :
    List.Pairwise createdLE [annEarly, annLate] ∧
    ([annEarly, annLate] : List AnnotationRec).Perm
      (dbView.annotations.filter (fun a => a.protein_id == protAG.id)) :=
  view_protein_sorted dbView "s" (protAG, [annEarly, annLate]) (by decide)

end ProteinApp
